import Mathlib

/-!
Shallow embedding of `src/modules/events.ts`, the miniflare event dispatch
engine: event object construction, listener registration, the fetch and
scheduled dispatch algorithms, and the background-task ("wait until")
aggregation protocol.

Modelling conventions:
* A settled JavaScript promise of a value of type `α` is an `Except JsError α`.
  A background task (`waitUntil` entry) additionally records the virtual time
  at which it settles, so that the first-rejection-wins behaviour of
  `Promise.all` is observable independently of registration order.
* Mutation is modelled by explicit state passing.  The dispatch functions
  return instrumented results that record the externally observable effects:
  how many listeners were invoked, which failures were logged as warnings,
  the final header state of the caller's request object (which the source
  mutates in place on the fallback path) and the request value handed to the
  upstream transport, if any.
* A listener body is an arbitrary synchronous JS function; the engine
  observes of it exactly the trace of calls it makes against the event API
  (`respondWith`, `passThroughOnException`, `waitUntil`) followed by a normal
  return or a synchronous throw.  A listener is therefore embedded as a list
  of such actions, a throw action aborting the rest of the trace.
* `Request` object identity (`request.clone()` creates a fresh object with
  the same content) is modelled by the `id` field: `clone` yields a request
  with the same headers but a distinct `id`.
* The outbound HTTP transport (`fetch` from the node-fetch import) is an
  external collaborator and is passed to `dispatchFetch` as a function
  parameter; the `upstreamUrl` argument is only ever null-checked by the
  source, so it is embedded as an `Option String`.
-/

deriving instance DecidableEq for Except

namespace MiniflareEvents

/-- Result value of a settled background task (`Promise<any>`), atomised. -/
abbrev Val := Nat

/-- Errors that can travel through the engine: arbitrary user errors thrown
by listener code or carried by rejected promises (`thrown`), the TypeError
raised by calling a method that does not exist on the receiver, and the
`FetchError` thrown by `dispatchFetch` when no handler responded and no
upstream is configured. -/
inductive JsError where
  | thrown (n : Nat)
  | typeError
  | fetchNoUpstream
deriving DecidableEq, Repr

/-- An HTTP response object (`Response` from node-fetch); only its identity
matters to the dispatch engine, which never inspects it. -/
structure Response where
  id : Nat
deriving DecidableEq, Repr

/-- An HTTP request object.  `id` models JS object identity (distinguishing
the inbound request from its clone); `headers` models the mutable header
map, stored in node-fetch's lower-cased normal form. -/
structure Request where
  id : Nat
  headers : List (String × String)
deriving DecidableEq, Repr

/-- `request.clone()`: a fresh object (distinct identity) with the same
content. -/
def Request.clone (r : Request) : Request :=
  { r with id := r.id + 1 }

/-- `request.headers.delete(name)`: removes the named header in place;
modelled as returning the mutated request value. -/
def Request.deleteHeader (r : Request) (name : String) : Request :=
  { r with headers := r.headers.filter fun p => !(p.1 == name) }

/-- A background task registered via `waitUntil`: a promise that settles at
virtual time `time` with outcome `result`. -/
structure PTask where
  time : Nat
  result : Except JsError Val
deriving DecidableEq, Repr

/-- The value of a resolved task, `none` if it rejected. -/
def PTask.value? (t : PTask) : Option Val :=
  match t.result with
  | Except.ok v => some v
  | Except.error _ => none

/-- The settlement time and error of a rejected task, `none` if it
resolved. -/
def PTask.rejection? (t : PTask) : Option (Nat × JsError) :=
  match t.result with
  | Except.ok _ => none
  | Except.error e => some (t.time, e)

/-- Of a list of (time, error) rejections, the one that settles first; on
equal times the earlier entry wins. -/
def earliestRej : List (Nat × JsError) → Option (Nat × JsError)
  | [] => none
  | x :: rest =>
    match earliestRej rest with
    | none => some x
    | some y => some (if y.1 < x.1 then y else x)

/-- `Promise.all` over settled tasks: if every task resolves, the array of
their values in list order; otherwise rejection with the error of the task
that rejects earliest in time. -/
def promiseAll (ts : List PTask) : Except JsError (List Val) :=
  match earliestRej (ts.filterMap PTask.rejection?) with
  | some p => Except.error p.2
  | none => Except.ok (ts.filterMap PTask.value?)

/-- The `FetchEvent` object together with its engine-private side-table
state: `responseMap` entry (`response`), `passThroughMap` entry
(`passThru`, absent modelled as `false`) and `waitUntilMap` entry
(`tasks`). -/
structure FetchEvent where
  request : Request
  response : Option (Except JsError Response)
  passThru : Bool
  tasks : List PTask
deriving DecidableEq, Repr

/-- `FetchEvent.respondWith`: stores `Promise.resolve(response)` in the
response slot, overwriting any prior value. -/
def FetchEvent.respondWith (ev : FetchEvent) (p : Except JsError Response) : FetchEvent :=
  { ev with response := some p }

/-- `FetchEvent.passThroughOnException`: sets the pass-through flag. -/
def FetchEvent.passThroughOnException (ev : FetchEvent) : FetchEvent :=
  { ev with passThru := true }

/-- `FetchEvent.waitUntil`: appends a promise to the event's background-task
list. -/
def FetchEvent.waitUntil (ev : FetchEvent) (t : PTask) : FetchEvent :=
  { ev with tasks := ev.tasks ++ [t] }

/-- The `ScheduledEvent` object with its `waitUntilMap` entry. -/
structure ScheduledEvent where
  scheduledTime : Nat
  cron : String
  tasks : List PTask
deriving DecidableEq, Repr

/-- `ScheduledEvent.waitUntil`: appends a promise to the event's
background-task list. -/
def ScheduledEvent.waitUntil (ev : ScheduledEvent) (t : PTask) : ScheduledEvent :=
  { ev with tasks := ev.tasks ++ [t] }

/-- One call a listener body makes against the event API, or a synchronous
throw terminating the body. -/
inductive EAction where
  | respondWith (p : Except JsError Response)
  | passThroughOnException
  | waitUntil (t : PTask)
  | throwErr (n : Nat)
deriving DecidableEq, Repr

/-- A listener body, as the trace of event-API calls it performs. -/
abbrev EProgram := List EAction

/-- Run a listener body against a `FetchEvent`: each action invokes the
corresponding event method; a throw aborts the remaining actions and
surfaces as the listener invocation's synchronous exception. -/
def runFetchActions : EProgram → FetchEvent → FetchEvent × Except JsError Unit
  | [], ev => (ev, Except.ok ())
  | EAction.respondWith p :: rest, ev => runFetchActions rest (ev.respondWith p)
  | EAction.passThroughOnException :: rest, ev =>
      runFetchActions rest ev.passThroughOnException
  | EAction.waitUntil t :: rest, ev => runFetchActions rest (ev.waitUntil t)
  | EAction.throwErr n :: _, ev => (ev, Except.error (JsError.thrown n))

/-- Run a listener body against a `ScheduledEvent`.  A `ScheduledEvent` has
no `respondWith` or `passThroughOnException` method, so those calls raise a
TypeError, exactly as calling a missing method does in JS. -/
def runScheduledActions : EProgram → ScheduledEvent → ScheduledEvent × Except JsError Unit
  | [], ev => (ev, Except.ok ())
  | EAction.waitUntil t :: rest, ev => runScheduledActions rest (ev.waitUntil t)
  | EAction.throwErr n :: _, ev => (ev, Except.error (JsError.thrown n))
  | EAction.respondWith _ :: _, ev => (ev, Except.error JsError.typeError)
  | EAction.passThroughOnException :: _, ev => (ev, Except.error JsError.typeError)

/-- The `EventsModule`: the per-type listener registry (`_listeners`; a
missing key and an empty list are indistinguishable through the source's
`?? []` accesses, so the registry is a total function into lists) and the
log of warnings emitted by `addEventListener`. -/
structure EventsModule where
  listeners : String → List EProgram
  warnLog : List String

/-- A module with no registered listeners (`_listeners = {}`). -/
def emptyModule : EventsModule :=
  { listeners := fun _ => [], warnLog := [] }

/-- The warning `addEventListener` logs for an unrecognized event type. -/
def invalidTypeWarning (ty : String) : String :=
  "Invalid event type: expected \"fetch\" | \"scheduled\", got \"" ++ ty ++ "\""

/-- `EventsModule.addEventListener`: warns when the type is neither
`"fetch"` nor `"scheduled"`, then appends the listener to that type's
ordered sequence regardless. -/
def addEventListener (m : EventsModule) (ty : String) (l : EProgram) : EventsModule :=
  let m1 :=
    if ty ≠ "fetch" ∧ ty ≠ "scheduled" then
      { m with warnLog := m.warnLog ++ [invalidTypeWarning ty] }
    else m
  { m1 with listeners := fun t => if t = ty then m1.listeners t ++ [l] else m1.listeners t }

/-- `EventsModule.resetEventListeners`: drops every entry for every type. -/
def resetEventListeners (m : EventsModule) : EventsModule :=
  { m with listeners := fun _ => [] }

/-- A module-convention scheduled handler, as observed by the adapter: the
trace of `ctx.waitUntil` registrations it performs while running, and
`Promise.resolve` of its return value. -/
structure ModScheduledListener where
  calls : List PTask
  ret : PTask
deriving DecidableEq, Repr

/-- The event-listener body the adapter in `addModuleScheduledListener`
registers: it invokes the module handler (performing the handler's own
`ctx.waitUntil` calls, which are bound to `e.waitUntil`) and then calls
`e.waitUntil(Promise.resolve(res))` on the handler's return value. -/
def moduleScheduledProgram (L : ModScheduledListener) : EProgram :=
  L.calls.map EAction.waitUntil ++ [EAction.waitUntil L.ret]

/-- `EventsModule.addModuleScheduledListener`: registers the adapted body
under the `"scheduled"` type.  (The `environment` argument is passed through
to the handler and never touches the engine, so it is not modelled.) -/
def addModuleScheduledListener (m : EventsModule) (L : ModScheduledListener) : EventsModule :=
  addEventListener m "scheduled" (moduleScheduledProgram L)

/-- The `waitUntil` accessor attached to dispatched responses: a closure
over the event that, on each invocation, reads the event's current
background-task list and awaits `Promise.all` of it. -/
def waitUntilAll (ev : FetchEvent) : Except JsError (List Val) :=
  promiseAll ev.tasks

/-- A successfully dispatched response: the response value, whether it came
from the upstream fallback, and the event captured by the attached
`waitUntil` accessor closure. -/
structure FetchSuccess where
  response : Response
  viaUpstream : Bool
  event : FetchEvent
deriving DecidableEq, Repr

/-- Invoking the `waitUntil` accessor attached to a dispatched response. -/
def FetchSuccess.waitUntil (s : FetchSuccess) : Except JsError (List Val) :=
  waitUntilAll s.event

/-- State threaded through the listener loop of `dispatchFetch`: the event,
the number of listener invocations started, and the failures logged as
warnings. -/
structure LoopState where
  ev : FetchEvent
  invoked : Nat
  warnings : List JsError
deriving DecidableEq, Repr

/-- How the listener loop of `dispatchFetch` ends: a listener's awaited
response is returned, an error propagates, or control falls through to the
fallback path (listeners exhausted, or pass-through `break`). -/
inductive LoopExit where
  | responded (resp : Response)
  | threw (e : JsError)
  | fellThrough
deriving DecidableEq, Repr

/-- The listener loop of `dispatchFetch` (source lines 144-164): invoke each
listener in order; await the response slot; return a set response; on a
synchronous throw or a rejected response promise, warn and `break` if the
pass-through flag is set, otherwise rethrow. -/
def fetchLoop : List EProgram → LoopState → LoopState × LoopExit
  | [], s => (s, LoopExit.fellThrough)
  | l :: rest, s =>
    match runFetchActions l s.ev with
    | (ev', Except.error e) =>
      if ev'.passThru then
        ({ ev := ev', invoked := s.invoked + 1, warnings := s.warnings ++ [e] },
          LoopExit.fellThrough)
      else
        ({ ev := ev', invoked := s.invoked + 1, warnings := s.warnings },
          LoopExit.threw e)
    | (ev', Except.ok _) =>
      match ev'.response with
      | none =>
          fetchLoop rest { ev := ev', invoked := s.invoked + 1, warnings := s.warnings }
      | some (Except.ok resp) =>
          ({ ev := ev', invoked := s.invoked + 1, warnings := s.warnings },
            LoopExit.responded resp)
      | some (Except.error e) =>
        if ev'.passThru then
          ({ ev := ev', invoked := s.invoked + 1, warnings := s.warnings ++ [e] },
            LoopExit.fellThrough)
        else
          ({ ev := ev', invoked := s.invoked + 1, warnings := s.warnings },
            LoopExit.threw e)

/-- The observable outcome of a `dispatchFetch` call: its result (a
decorated response or a thrown error), how many listeners were invoked, the
warnings logged, the final state of the caller's request object (whose
`host` header the fallback path deletes in place), and the request value
passed to the upstream transport (`none` when no upstream fetch was
performed). -/
structure DispatchResult where
  result : Except JsError FetchSuccess
  invoked : Nat
  warnings : List JsError
  finalRequest : Request
  fetchedRequest : Option Request
deriving DecidableEq, Repr

/-- The fallback path of `dispatchFetch` (source lines 166-177): with no
upstream, throw the configuration `FetchError`; otherwise delete the `host`
header from the (original) request object and fetch it from the upstream,
attaching the same `waitUntil` accessor to the transported response. -/
def fallback (upstreamUrl : Option String)
    (fetchUpstream : Request → Except JsError Response)
    (request : Request) (s : LoopState) : DispatchResult :=
  match upstreamUrl with
  | none =>
      { result := Except.error JsError.fetchNoUpstream,
        invoked := s.invoked, warnings := s.warnings,
        finalRequest := request, fetchedRequest := none }
  | some _ =>
      let request' := request.deleteHeader "host"
      match fetchUpstream request' with
      | Except.ok resp =>
          { result := Except.ok { response := resp, viaUpstream := true, event := s.ev },
            invoked := s.invoked, warnings := s.warnings,
            finalRequest := request', fetchedRequest := some request' }
      | Except.error e =>
          { result := Except.error e,
            invoked := s.invoked, warnings := s.warnings,
            finalRequest := request', fetchedRequest := some request' }

/-- The loop state `dispatchFetch` starts from: a fresh `FetchEvent`
wrapping `request.clone()`, with empty side-table state. -/
def initLoopState (request : Request) : LoopState :=
  { ev := { request := request.clone, response := none, passThru := false, tasks := [] },
    invoked := 0, warnings := [] }

/-- `EventsModule.dispatchFetch` (source lines 130-178). -/
def dispatchFetch (m : EventsModule) (upstreamUrl : Option String)
    (fetchUpstream : Request → Except JsError Response)
    (request : Request) : DispatchResult :=
  match fetchLoop (m.listeners "fetch") (initLoopState request) with
  | (s, LoopExit.responded resp) =>
      { result := Except.ok { response := resp, viaUpstream := false, event := s.ev },
        invoked := s.invoked, warnings := s.warnings,
        finalRequest := request, fetchedRequest := none }
  | (s, LoopExit.threw e) =>
      { result := Except.error e,
        invoked := s.invoked, warnings := s.warnings,
        finalRequest := request, fetchedRequest := none }
  | (s, LoopExit.fellThrough) => fallback upstreamUrl fetchUpstream request s

/-- The listener loop of `dispatchScheduled` (source lines 185-187): each
listener is invoked synchronously, with no surrounding try/catch, so a
synchronous throw propagates immediately.  The `Nat` counts invocations
started. -/
def scheduledLoop : List EProgram → ScheduledEvent → Nat →
    Except (JsError × Nat) (ScheduledEvent × Nat)
  | [], ev, n => Except.ok (ev, n)
  | l :: rest, ev, n =>
    match runScheduledActions l ev with
    | (ev', Except.ok _) => scheduledLoop rest ev' (n + 1)
    | (_, Except.error e) => Except.error (e, n + 1)

/-- The observable outcome of a `dispatchScheduled` call: the aggregated
background-task results (or the propagated error) and the number of
listeners invoked. -/
structure ScheduledResult where
  result : Except JsError (List Val)
  invoked : Nat
deriving DecidableEq, Repr

/-- `EventsModule.dispatchScheduled` (source lines 180-191): construct a
fresh `ScheduledEvent` (timestamp defaulting to the current time `now`,
cron defaulting to `""`), invoke every `"scheduled"` listener in order, then
await `Promise.all` of the event's background-task list. -/
def dispatchScheduled (m : EventsModule) (now : Nat)
    (scheduledTime : Option Nat) (cron : Option String) : ScheduledResult :=
  let ev : ScheduledEvent :=
    { scheduledTime := scheduledTime.getD now, cron := cron.getD "", tasks := [] }
  match scheduledLoop (m.listeners "scheduled") ev 0 with
  | Except.error (e, n) => { result := Except.error e, invoked := n }
  | Except.ok (ev', n) => { result := promiseAll ev'.tasks, invoked := n }

/-- Whether a listener body contains no throw, i.e. always returns
normally. -/
def throwFree : EProgram → Bool
  | [] => true
  | EAction.throwErr _ :: _ => false
  | EAction.respondWith _ :: rest => throwFree rest
  | EAction.passThroughOnException :: rest => throwFree rest
  | EAction.waitUntil _ :: rest => throwFree rest

/-- Merge of response-slot writes: the left (later-write) value wins. -/
def respMerge (a b : Option (Except JsError Response)) : Option (Except JsError Response) :=
  match a with
  | some p => some p
  | none => b

/-- The value left in the response slot by a listener body that started from
an empty slot: the payload of its last `respondWith` call, if any. -/
def lastResponse : EProgram → Option (Except JsError Response)
  | [] => none
  | EAction.respondWith p :: rest => respMerge (lastResponse rest) (some p)
  | EAction.passThroughOnException :: rest => lastResponse rest
  | EAction.waitUntil _ :: rest => lastResponse rest
  | EAction.throwErr _ :: rest => lastResponse rest

/-- Whether a listener body calls `passThroughOnException`. -/
def hasPassThrough : EProgram → Bool
  | [] => false
  | EAction.passThroughOnException :: _ => true
  | EAction.respondWith _ :: rest => hasPassThrough rest
  | EAction.waitUntil _ :: rest => hasPassThrough rest
  | EAction.throwErr _ :: rest => hasPassThrough rest

/-- The background tasks a listener body registers, in registration
order. -/
def tasksOf : EProgram → List PTask
  | [] => []
  | EAction.waitUntil t :: rest => t :: tasksOf rest
  | EAction.respondWith _ :: rest => tasksOf rest
  | EAction.passThroughOnException :: rest => tasksOf rest
  | EAction.throwErr _ :: rest => tasksOf rest

/-- Whether a listener body only registers background tasks — the interface
a scheduled listener is given (§4.1: a Timer Event exposes only `waitUntil`). -/
def onlyWaitUntil : EProgram → Bool
  | [] => true
  | EAction.waitUntil _ :: rest => onlyWaitUntil rest
  | EAction.respondWith _ :: _ => false
  | EAction.passThroughOnException :: _ => false
  | EAction.throwErr _ :: _ => false

/-- All background tasks registered by a sequence of listener bodies, in
registration order. -/
def allTasks : List EProgram → List PTask
  | [] => []
  | l :: rest => tasksOf l ++ allTasks rest

/-- The loop state after a run of listeners that neither throw nor respond:
each is invoked and its event mutations retained. -/
def runCleanState : List EProgram → LoopState → LoopState
  | [], s => s
  | l :: rest, s =>
      runCleanState rest
        { ev := (runFetchActions l s.ev).1, invoked := s.invoked + 1, warnings := s.warnings }

/-- Concrete inputs used to instantiate the theorems below on closed
examples: a bare request. -/
def wReq : Request := { id := 0, headers := [] }

/-- A request carrying a `host` header. -/
def wReqH : Request := { id := 0, headers := [("host", "example.com")] }

/-- A transport that always fails (never reached in the examples using it). -/
def wTr : Request → Except JsError Response := fun _ => Except.error (JsError.thrown 0)

/-- A transport that always answers with response 100. -/
def wTrOk : Request → Except JsError Response := fun _ => Except.ok { id := 100 }

/-- A listener that only registers a background task. -/
def wL0 : EProgram := [EAction.waitUntil { time := 0, result := Except.ok 7 }]

/-- A listener that responds with response 5. -/
def wLk : EProgram := [EAction.respondWith (Except.ok { id := 5 })]

/-- A listener that throws; a side effect observable if it were invoked. -/
def wLpost : EProgram := [EAction.throwErr 9]

/-- A module with three fetch listeners: task-registering, responding,
throwing. -/
def wMod1 : EventsModule :=
  addEventListener (addEventListener (addEventListener emptyModule "fetch" wL0)
    "fetch" wLk) "fetch" wLpost

/-- A listener that grants pass-through and then throws. -/
def wLf : EProgram := [EAction.passThroughOnException, EAction.throwErr 3]

/-- A module with the single pass-through-then-throw fetch listener. -/
def wMod2 : EventsModule := addEventListener emptyModule "fetch" wLf

/-- The event state `wLf` leaves behind when run from a fresh event on
`wReq`. -/
def wEvPT : FetchEvent :=
  { request := wReq.clone, response := none, passThru := true, tasks := [] }

/-- An event whose two tasks resolve out of registration order (times 5 and
2). -/
def wEvA : FetchEvent :=
  { request := wReq, response := none, passThru := false,
    tasks := [{ time := 5, result := Except.ok 1 }, { time := 2, result := Except.ok 2 }] }

/-- An event whose two tasks both reject, the later-registered one first in
time. -/
def wEvB : FetchEvent :=
  { request := wReq, response := none, passThru := false,
    tasks := [{ time := 5, result := Except.error (JsError.thrown 7) },
              { time := 2, result := Except.error (JsError.thrown 8) }] }

/-- A scheduled listener registering a task that will reject. -/
def wS1 : EProgram := [EAction.waitUntil { time := 0, result := Except.error (JsError.thrown 3) }]

/-- A scheduled listener registering a task that resolves. -/
def wS2 : EProgram := [EAction.waitUntil { time := 1, result := Except.ok 4 }]

/-- A module with two scheduled listeners, the first registering a rejecting
task. -/
def wModS : EventsModule :=
  addEventListener (addEventListener emptyModule "scheduled" wS1) "scheduled" wS2

/-- A module-convention scheduled handler registering tasks 1 and 2 and
returning 9. -/
def wML : ModScheduledListener :=
  { calls := [{ time := 3, result := Except.ok 1 }, { time := 1, result := Except.ok 2 }],
    ret := { time := 0, result := Except.ok 9 } }

/-- A module whose fetch listener registers task 10 and then responds with
response 1. -/
def wMod10 : EventsModule :=
  addEventListener emptyModule "fetch"
    [EAction.waitUntil { time := 0, result := Except.ok 10 },
     EAction.respondWith (Except.ok { id := 1 })]

/-- The dispatched success `wMod10` produces on `wReq`. -/
def wS10 : FetchSuccess :=
  { response := { id := 1 }, viaUpstream := false,
    event := { request := wReq.clone, response := some (Except.ok { id := 1 }),
               passThru := false, tasks := [{ time := 0, result := Except.ok 10 }] } }

/-- Running a throw-free listener body leaves the event's request untouched,
overwrites the response slot with the body's last `respondWith` payload (if
any), accumulates the pass-through flag and appends the registered
background tasks, and returns normally. -/
theorem runFetchActions_throwFree (l : EProgram) (ev : FetchEvent) (h : throwFree l = true) :
    runFetchActions l ev =
      ({ request := ev.request,
         response := respMerge (lastResponse l) ev.response,
         passThru := ev.passThru || hasPassThrough l,
         tasks := ev.tasks ++ tasksOf l }, Except.ok ()) := by
  induction l generalizing ev with
  | nil => simp [runFetchActions, lastResponse, respMerge, hasPassThrough, tasksOf]
  | cons a rest ih =>
    cases a with
    | respondWith p =>
      have h' : throwFree rest = true := by simpa [throwFree] using h
      rw [runFetchActions, ih (ev.respondWith p) h']
      cases hl : lastResponse rest <;>
        simp [FetchEvent.respondWith, lastResponse, hasPassThrough, tasksOf, respMerge, hl]
    | passThroughOnException =>
      have h' : throwFree rest = true := by simpa [throwFree] using h
      rw [runFetchActions, ih ev.passThroughOnException h']
      simp [FetchEvent.passThroughOnException, lastResponse, hasPassThrough, tasksOf]
    | waitUntil t =>
      have h' : throwFree rest = true := by simpa [throwFree] using h
      rw [runFetchActions, ih (ev.waitUntil t) h']
      simp [FetchEvent.waitUntil, lastResponse, hasPassThrough, tasksOf]
    | throwErr n => simp [throwFree] at h

/-- No listener body can touch the request wrapped by the event. -/
theorem runFetchActions_request (l : EProgram) (ev : FetchEvent) :
    ((runFetchActions l ev).1).request = ev.request := by
  induction l generalizing ev with
  | nil => rfl
  | cons a rest ih =>
    cases a with
    | respondWith p => exact ih (ev.respondWith p)
    | passThroughOnException => exact ih ev.passThroughOnException
    | waitUntil t => exact ih (ev.waitUntil t)
    | throwErr n => rfl

/-- No listener body can unset the pass-through flag once it is set. -/
theorem runFetchActions_passThru_mono (l : EProgram) (ev : FetchEvent)
    (h : ev.passThru = true) : ((runFetchActions l ev).1).passThru = true := by
  induction l generalizing ev with
  | nil => exact h
  | cons a rest ih =>
    cases a with
    | respondWith p => exact ih (ev.respondWith p) h
    | passThroughOnException => exact ih ev.passThroughOnException rfl
    | waitUntil t => exact ih (ev.waitUntil t) h
    | throwErr n => exact h

/-- One turn of the fetch listener loop for a listener that neither throws
nor leaves a response: the loop continues into the mutated state, whose
response slot is still empty. -/
theorem fetchLoop_clean_step (l : EProgram) (rest : List EProgram) (s : LoopState)
    (hT : throwFree l = true) (hR : lastResponse l = none) (hres : s.ev.response = none) :
    fetchLoop (l :: rest) s =
      fetchLoop rest
        { ev := (runFetchActions l s.ev).1, invoked := s.invoked + 1, warnings := s.warnings } ∧
    ((runFetchActions l s.ev).1).response = none := by
  have hev := runFetchActions_throwFree l s.ev hT
  rw [hR, hres] at hev
  simp only [respMerge] at hev
  constructor
  · rw [fetchLoop, hev]
  · rw [hev]

/-- The fetch listener loop runs through a sequence of listeners that
neither throw nor respond, accumulating their event mutations. -/
theorem fetchLoop_clean_pre (pre : List EProgram) (rest : List EProgram) (s : LoopState)
    (h : ∀ l ∈ pre, throwFree l = true ∧ lastResponse l = none)
    (hres : s.ev.response = none) :
    fetchLoop (pre ++ rest) s = fetchLoop rest (runCleanState pre s) ∧
    (runCleanState pre s).ev.response = none := by
  induction pre generalizing s with
  | nil => exact ⟨rfl, hres⟩
  | cons l pre' ih =>
    obtain ⟨hT, hR⟩ := h l (by simp)
    have h' : ∀ x ∈ pre', throwFree x = true ∧ lastResponse x = none := by
      intro x hx
      exact h x (by simp [hx])
    obtain ⟨hstep, hresp⟩ := fetchLoop_clean_step l (pre' ++ rest) s hT hR hres
    have ihs := ih h'
      (s := { ev := (runFetchActions l s.ev).1, invoked := s.invoked + 1,
              warnings := s.warnings }) hresp
    refine ⟨?_, ?_⟩
    · rw [List.cons_append, hstep, runCleanState]
      exact ihs.1
    · rw [runCleanState]
      exact ihs.2

/-- The clean-run loop invokes every listener exactly once. -/
theorem runCleanState_invoked (pre : List EProgram) (s : LoopState) :
    (runCleanState pre s).invoked = s.invoked + pre.length := by
  induction pre generalizing s with
  | nil => simp [runCleanState]
  | cons l pre' ih =>
    rw [runCleanState, ih]
    simp
    omega

/-- The clean-run loop logs no warnings. -/
theorem runCleanState_warnings (pre : List EProgram) (s : LoopState) :
    (runCleanState pre s).warnings = s.warnings := by
  induction pre generalizing s with
  | nil => rfl
  | cons l pre' ih =>
    rw [runCleanState, ih]

/-- The clean-run loop leaves the event's request untouched. -/
theorem runCleanState_request (pre : List EProgram) (s : LoopState) :
    (runCleanState pre s).ev.request = s.ev.request := by
  induction pre generalizing s with
  | nil => rfl
  | cons l pre' ih =>
    rw [runCleanState, ih]
    exact runFetchActions_request l s.ev

/-- `earliestRej` is empty exactly on the empty list. -/
theorem earliestRej_eq_none (xs : List (Nat × JsError)) : earliestRej xs = none ↔ xs = [] := by
  cases xs with
  | nil => simp [earliestRej]
  | cons x rest =>
    constructor
    · intro h
      exfalso
      cases he : earliestRej rest <;> simp [earliestRej, he] at h
    · intro h
      exact absurd h (List.cons_ne_nil x rest)

/-- `earliestRej` picks a member of minimal settlement time. -/
theorem earliestRej_spec (xs : List (Nat × JsError)) (p : Nat × JsError)
    (h : earliestRej xs = some p) : p ∈ xs ∧ ∀ q ∈ xs, p.1 ≤ q.1 := by
  induction xs generalizing p with
  | nil => simp [earliestRej] at h
  | cons x rest ih =>
    cases he : earliestRej rest with
    | none =>
      have hrest : rest = [] := (earliestRej_eq_none rest).1 he
      simp only [earliestRej, he] at h
      subst hrest
      simp at h
      subst h
      simp
    | some y =>
      simp only [earliestRej, he, Option.some.injEq] at h
      have hy := ih y he
      by_cases hc : y.1 < x.1
      · rw [if_pos hc] at h
        subst h
        refine ⟨by simp [hy.1], ?_⟩
        intro q hq
        rcases List.mem_cons.1 hq with rfl | hq'
        · exact Nat.le_of_lt hc
        · exact hy.2 q hq'
      · rw [if_neg hc] at h
        subst h
        refine ⟨by simp, ?_⟩
        intro q hq
        rcases List.mem_cons.1 hq with rfl | hq'
        · exact Nat.le_refl _
        · exact Nat.le_trans (Nat.le_of_not_lt hc) (hy.2 q hq')

/-- A task list has no rejections exactly when every task resolved. -/
theorem rejections_eq_nil (ts : List PTask) :
    ts.filterMap PTask.rejection? = [] ↔ ∀ t ∈ ts, ∃ v, t.result = Except.ok v := by
  induction ts with
  | nil => simp
  | cons t rest ih =>
    cases hr : t.result with
    | ok v => simp [List.filterMap_cons, PTask.rejection?, hr, ih]
    | error e => simp [List.filterMap_cons, PTask.rejection?, hr]

/-- If the tasks' outcomes are exactly the resolutions `vs`, then the
resolved values are `vs` and there are no rejections. -/
theorem values_of_results (ts : List PTask) (vs : List Val)
    (h : ts.map PTask.result = vs.map Except.ok) :
    ts.filterMap PTask.value? = vs ∧ ts.filterMap PTask.rejection? = [] := by
  induction ts generalizing vs with
  | nil =>
    cases vs with
    | nil => simp
    | cons v vs' => simp at h
  | cons t rest ih =>
    cases vs with
    | nil => simp at h
    | cons v vs' =>
      simp only [List.map_cons, List.cons.injEq] at h
      obtain ⟨h1, h2⟩ := h
      obtain ⟨ih1, ih2⟩ := ih vs' h2
      simp [List.filterMap_cons, PTask.value?, PTask.rejection?, h1, ih1, ih2]

/-- If every task resolved, the outcome list is the value list mapped
through `Except.ok`. -/
theorem all_ok_map (ts : List PTask) (h : ∀ t ∈ ts, ∃ v, t.result = Except.ok v) :
    ts.map PTask.result = (ts.filterMap PTask.value?).map Except.ok := by
  induction ts with
  | nil => simp
  | cons t rest ih =>
    obtain ⟨v, hv⟩ := h t (by simp)
    have ih' := ih fun u hu => h u (by simp [hu])
    simp [List.filterMap_cons, PTask.value?, hv, ih']

/-- `Promise.all` resolves with `vs` exactly when the tasks settle as the
resolutions `vs`, in list order. -/
theorem promiseAll_eq_ok_iff (ts : List PTask) (vs : List Val) :
    promiseAll ts = Except.ok vs ↔ ts.map PTask.result = vs.map Except.ok := by
  constructor
  · intro h
    unfold promiseAll at h
    cases he : earliestRej (ts.filterMap PTask.rejection?) with
    | some p => rw [he] at h; simp at h
    | none =>
      rw [he] at h
      simp only [Except.ok.injEq] at h
      have hnil := (earliestRej_eq_none _).1 he
      have hall := (rejections_eq_nil ts).1 hnil
      rw [all_ok_map ts hall, h]
  · intro h
    obtain ⟨h1, h2⟩ := values_of_results ts vs h
    unfold promiseAll
    rw [h2]
    simp [earliestRej, h1]

/-- If some task rejects, `Promise.all` rejects with the error of a
rejecting task of minimal settlement time. -/
theorem promiseAll_rejects (ts : List PTask)
    (h : ∃ t ∈ ts, ∃ e, t.result = Except.error e) :
    ∃ t ∈ ts, ∃ e, t.result = Except.error e ∧ promiseAll ts = Except.error e ∧
      ∀ u ∈ ts, ∀ e2, u.result = Except.error e2 → t.time ≤ u.time := by
  obtain ⟨t0, ht0, e0, he0⟩ := h
  have hmem : (t0.time, e0) ∈ ts.filterMap PTask.rejection? :=
    List.mem_filterMap.2 ⟨t0, ht0, by simp [PTask.rejection?, he0]⟩
  have hne : ts.filterMap PTask.rejection? ≠ [] := by
    intro hnil
    rw [hnil] at hmem
    simp at hmem
  cases he : earliestRej (ts.filterMap PTask.rejection?) with
  | none => exact absurd ((earliestRej_eq_none _).1 he) hne
  | some p =>
    obtain ⟨hpmem, hpmin⟩ := earliestRej_spec _ p he
    obtain ⟨t, htmem, htp⟩ := List.mem_filterMap.1 hpmem
    have hres : t.result = Except.error p.2 ∧ t.time = p.1 := by
      unfold PTask.rejection? at htp
      cases hr : t.result with
      | ok v => rw [hr] at htp; simp at htp
      | error e =>
        rw [hr] at htp
        simp only [Option.some.injEq, Prod.ext_iff] at htp
        exact ⟨congrArg Except.error htp.2, htp.1⟩
    refine ⟨t, htmem, p.2, hres.1, ?_, ?_⟩
    · unfold promiseAll
      rw [he]
    · intro u hu e2 hu2
      have humem : (u.time, e2) ∈ ts.filterMap PTask.rejection? :=
        List.mem_filterMap.2 ⟨u, hu, by simp [PTask.rejection?, hu2]⟩
      have hle := hpmin _ humem
      simp only at hle
      omega

/-- Running a task-registration-only listener body against a
`ScheduledEvent` appends its tasks in registration order and returns
normally. -/
theorem runScheduledActions_only (l : EProgram) (ev : ScheduledEvent)
    (h : onlyWaitUntil l = true) :
    runScheduledActions l ev =
      ({ scheduledTime := ev.scheduledTime, cron := ev.cron, tasks := ev.tasks ++ tasksOf l },
        Except.ok ()) := by
  induction l generalizing ev with
  | nil => simp [runScheduledActions, tasksOf]
  | cons a rest ih =>
    cases a with
    | waitUntil t =>
      have h' : onlyWaitUntil rest = true := by simpa [onlyWaitUntil] using h
      rw [runScheduledActions, ih (ev.waitUntil t) h']
      simp [ScheduledEvent.waitUntil, tasksOf]
    | respondWith p => simp [onlyWaitUntil] at h
    | passThroughOnException => simp [onlyWaitUntil] at h
    | throwErr n => simp [onlyWaitUntil] at h

/-- The scheduled listener loop over task-registration-only bodies invokes
every listener and accumulates all tasks in registration order. -/
theorem scheduledLoop_only (ls : List EProgram) (ev : ScheduledEvent) (n : Nat)
    (h : ∀ l ∈ ls, onlyWaitUntil l = true) :
    scheduledLoop ls ev n =
      Except.ok ({ scheduledTime := ev.scheduledTime, cron := ev.cron,
                   tasks := ev.tasks ++ allTasks ls }, n + ls.length) := by
  induction ls generalizing ev n with
  | nil => simp [scheduledLoop, allTasks]
  | cons l rest ih =>
    have hl := h l (by simp)
    have h' : ∀ x ∈ rest, onlyWaitUntil x = true := fun x hx => h x (by simp [hx])
    have ihs := ih
      { scheduledTime := ev.scheduledTime, cron := ev.cron, tasks := ev.tasks ++ tasksOf l }
      (n + 1) h'
    simp only [scheduledLoop, runScheduledActions_only l ev hl]
    rw [ihs]
    simp [allTasks, List.append_assoc]
    omega

/-- The invocation counter after a clean run from the initial dispatch
state. -/
theorem runCleanState_init_invoked (pre : List EProgram) (req : Request) :
    (runCleanState pre (initLoopState req)).invoked = pre.length := by
  rw [runCleanState_invoked]
  simp [initLoopState]

/-- No warnings are logged during a clean run from the initial dispatch
state. -/
theorem runCleanState_init_warnings (pre : List EProgram) (req : Request) :
    (runCleanState pre (initLoopState req)).warnings = [] := by
  rw [runCleanState_warnings]
  rfl

/-- Core lemma: a dispatch whose listeners, after a clean (non-throwing,
non-responding) prelude, hit a listener that either throws synchronously or
sets a response that rejects when awaited.  If the pass-through flag is set
at that moment the failure is logged and control falls to the fallback
path; otherwise the dispatch rethrows exactly that error with no fallback
attempted. -/
theorem dispatchFetch_failure (m : EventsModule) (upstreamUrl : Option String)
    (tr : Request → Except JsError Response) (req : Request)
    (pre post : List EProgram) (lf : EProgram) (e : JsError) (ev' : FetchEvent)
    (hls : m.listeners "fetch" = pre ++ lf :: post)
    (hpre : ∀ l ∈ pre, throwFree l = true ∧ lastResponse l = none)
    (hfail : runFetchActions lf (runCleanState pre (initLoopState req)).ev = (ev', Except.error e)
      ∨ (runFetchActions lf (runCleanState pre (initLoopState req)).ev = (ev', Except.ok ())
          ∧ ev'.response = some (Except.error e))) :
    (ev'.passThru = true →
       dispatchFetch m upstreamUrl tr req =
         fallback upstreamUrl tr req
           { ev := ev',
             invoked := (runCleanState pre (initLoopState req)).invoked + 1,
             warnings := (runCleanState pre (initLoopState req)).warnings ++ [e] }) ∧
    (ev'.passThru = false →
       dispatchFetch m upstreamUrl tr req =
         { result := Except.error e,
           invoked := (runCleanState pre (initLoopState req)).invoked + 1,
           warnings := (runCleanState pre (initLoopState req)).warnings,
           finalRequest := req, fetchedRequest := none }) := by
  obtain ⟨hloop, hresp⟩ :=
    fetchLoop_clean_pre pre (lf :: post) (initLoopState req) hpre rfl
  constructor
  · intro hp
    have hstep : fetchLoop (lf :: post) (runCleanState pre (initLoopState req)) =
        ({ ev := ev',
           invoked := (runCleanState pre (initLoopState req)).invoked + 1,
           warnings := (runCleanState pre (initLoopState req)).warnings ++ [e] },
          LoopExit.fellThrough) := by
      cases hfail with
      | inl hthrow => simp [fetchLoop, hthrow, hp]
      | inr hok => simp [fetchLoop, hok.1, hok.2, hp]
    unfold dispatchFetch
    rw [hls, hloop, hstep]
  · intro hp
    have hp' : ¬ ev'.passThru = true := by simp [hp]
    have hstep : fetchLoop (lf :: post) (runCleanState pre (initLoopState req)) =
        ({ ev := ev',
           invoked := (runCleanState pre (initLoopState req)).invoked + 1,
           warnings := (runCleanState pre (initLoopState req)).warnings },
          LoopExit.threw e) := by
      cases hfail with
      | inl hthrow => simp [fetchLoop, hthrow, hp]
      | inr hok => simp [fetchLoop, hok.1, hok.2, hp]
    unfold dispatchFetch
    rw [hls, hloop, hstep]

/-- Core lemma: a dispatch whose listeners, after a clean prelude, hit a
throw-free listener whose last `respondWith` payload resolves: the dispatch
returns that response, decorated, from the event state the responder left
behind; no fallback runs and nothing is logged. -/
theorem dispatchFetch_responder (m : EventsModule) (upstreamUrl : Option String)
    (tr : Request → Except JsError Response) (req : Request)
    (pre post : List EProgram) (lk : EProgram) (resp : Response)
    (hls : m.listeners "fetch" = pre ++ lk :: post)
    (hpre : ∀ l ∈ pre, throwFree l = true ∧ lastResponse l = none)
    (hkT : throwFree lk = true)
    (hkR : lastResponse lk = some (Except.ok resp)) :
    dispatchFetch m upstreamUrl tr req =
      { result := Except.ok
          { response := resp, viaUpstream := false,
            event := (runFetchActions lk (runCleanState pre (initLoopState req)).ev).1 },
        invoked := (runCleanState pre (initLoopState req)).invoked + 1,
        warnings := (runCleanState pre (initLoopState req)).warnings,
        finalRequest := req, fetchedRequest := none } := by
  obtain ⟨hloop, hresp⟩ :=
    fetchLoop_clean_pre pre (lk :: post) (initLoopState req) hpre rfl
  have hrun := runFetchActions_throwFree lk (runCleanState pre (initLoopState req)).ev hkT
  rw [hkR] at hrun
  simp only [respMerge] at hrun
  have hstep : fetchLoop (lk :: post) (runCleanState pre (initLoopState req)) =
      ({ ev := (runFetchActions lk (runCleanState pre (initLoopState req)).ev).1,
         invoked := (runCleanState pre (initLoopState req)).invoked + 1,
         warnings := (runCleanState pre (initLoopState req)).warnings },
        LoopExit.responded resp) := by
    rw [fetchLoop, hrun]
  unfold dispatchFetch
  rw [hls, hloop, hstep]

/-- Core lemma: a dispatch all of whose listeners are clean (no throws, no
responses) exhausts the listener list and takes the fallback path from the
accumulated state. -/
theorem dispatchFetch_exhausted (m : EventsModule) (upstreamUrl : Option String)
    (tr : Request → Except JsError Response) (req : Request)
    (h : ∀ l ∈ m.listeners "fetch", throwFree l = true ∧ lastResponse l = none) :
    dispatchFetch m upstreamUrl tr req =
      fallback upstreamUrl tr req
        (runCleanState (m.listeners "fetch") (initLoopState req)) := by
  have hloop := (fetchLoop_clean_pre (m.listeners "fetch") [] (initLoopState req) h rfl).1
  rw [List.append_nil] at hloop
  unfold dispatchFetch
  rw [hloop, fetchLoop]

/-- No listener turn can touch the request wrapped by the event, whatever
the turns' outcomes: the event's request survives the whole listener
loop. -/
theorem fetchLoop_request (ls : List EProgram) (s : LoopState) :
    ((fetchLoop ls s).1).ev.request = s.ev.request := by
  induction ls generalizing s with
  | nil => rfl
  | cons l rest ih =>
    rcases hr : runFetchActions l s.ev with ⟨ev', r⟩
    have hreq : ev'.request = s.ev.request := by
      have h0 := runFetchActions_request l s.ev
      rw [hr] at h0
      exact h0
    cases r with
    | error e =>
      cases hpt : ev'.passThru <;> simp [fetchLoop, hr, hpt, hreq]
    | ok a =>
      cases hresp : ev'.response with
      | none =>
        simp only [fetchLoop, hr, hresp]
        rw [ih { ev := ev', invoked := s.invoked + 1, warnings := s.warnings }]
        exact hreq
      | some p =>
        cases p with
        | ok resp => simp [fetchLoop, hr, hresp, hreq]
        | error e =>
          cases hpt : ev'.passThru <;> simp [fetchLoop, hr, hresp, hpt, hreq]

/-- Whenever the listener loop falls through — listeners exhausted without
a response, or a pass-through `break` — the dispatch is the fallback path
run from the loop's final state.  This is the definition of "reaching the
fallback path", covering both routes. -/
theorem dispatchFetch_fellThrough (m : EventsModule) (upstreamUrl : Option String)
    (tr : Request → Except JsError Response) (req : Request)
    (h : (fetchLoop (m.listeners "fetch") (initLoopState req)).2 = LoopExit.fellThrough) :
    dispatchFetch m upstreamUrl tr req =
      fallback upstreamUrl tr req (fetchLoop (m.listeners "fetch") (initLoopState req)).1 := by
  unfold dispatchFetch
  rcases hloop : fetchLoop (m.listeners "fetch") (initLoopState req) with ⟨s, ex⟩
  rw [hloop] at h
  cases ex with
  | responded r => simp at h
  | threw e => simp at h
  | fellThrough => rfl

/-- The fallback path invokes no further listeners. -/
theorem fallback_invoked (u : Option String) (tr : Request → Except JsError Response)
    (req : Request) (s : LoopState) : (fallback u tr req s).invoked = s.invoked := by
  cases u with
  | none => rfl
  | some x =>
    simp only [fallback]
    cases htr : tr (req.deleteHeader "host") <;> simp [htr]

/-- The fallback path logs nothing further. -/
theorem fallback_warnings (u : Option String) (tr : Request → Except JsError Response)
    (req : Request) (s : LoopState) : (fallback u tr req s).warnings = s.warnings := by
  cases u with
  | none => rfl
  | some x =>
    simp only [fallback]
    cases htr : tr (req.deleteHeader "host") <;> simp [htr]

/-- Components of the fallback path when an upstream is configured: the
caller's request object loses its `host` header and is the value passed to
the transport, and a transported response's attached accessor captures the
loop's final event. -/
theorem fallback_some_parts (u : String) (tr : Request → Except JsError Response)
    (req : Request) (s : LoopState) :
    (fallback (some u) tr req s).fetchedRequest = some (req.deleteHeader "host") ∧
    (fallback (some u) tr req s).finalRequest = req.deleteHeader "host" ∧
    ∀ fs : FetchSuccess, (fallback (some u) tr req s).result = Except.ok fs →
      fs.event = s.ev := by
  simp only [fallback]
  cases htr : tr (req.deleteHeader "host") with
  | ok r =>
    refine ⟨by simp [htr], by simp [htr], ?_⟩
    intro fs hfs
    simp only [htr] at hfs
    simp only [Except.ok.injEq] at hfs
    rw [← hfs]
  | error e =>
    refine ⟨by simp [htr], by simp [htr], ?_⟩
    intro fs hfs
    simp [htr] at hfs

/-- The registry after `addEventListener`: the listener is appended to the
given type's sequence and every other type is untouched, whether or not the
type is recognized. -/
theorem addEventListener_listeners (m : EventsModule) (ty : String) (l : EProgram)
    (t : String) :
    (addEventListener m ty l).listeners t =
      if t = ty then m.listeners t ++ [l] else m.listeners t := by
  unfold addEventListener
  by_cases hc : ty ≠ "fetch" ∧ ty ≠ "scheduled"
  · simp only [if_pos hc]
  · simp only [if_neg hc]

/-- `addEventListener` on an unrecognized type logs the warning. -/
theorem addEventListener_warnLog_invalid (m : EventsModule) (ty : String) (l : EProgram)
    (hc : ty ≠ "fetch" ∧ ty ≠ "scheduled") :
    (addEventListener m ty l).warnLog = m.warnLog ++ [invalidTypeWarning ty] := by
  unfold addEventListener
  simp only [if_pos hc]

/-- `dispatchFetch` reads the registry only at the `"fetch"` key. -/
theorem dispatchFetch_reads_only_fetch (m1 m2 : EventsModule)
    (h : m1.listeners "fetch" = m2.listeners "fetch")
    (upstreamUrl : Option String) (tr : Request → Except JsError Response) (req : Request) :
    dispatchFetch m1 upstreamUrl tr req = dispatchFetch m2 upstreamUrl tr req := by
  unfold dispatchFetch
  rw [h]

/-- `dispatchScheduled` reads the registry only at the `"scheduled"` key. -/
theorem dispatchScheduled_reads_only_scheduled (m1 m2 : EventsModule)
    (h : m1.listeners "scheduled" = m2.listeners "scheduled")
    (now : Nat) (st : Option Nat) (cr : Option String) :
    dispatchScheduled m1 now st cr = dispatchScheduled m2 now st cr := by
  unfold dispatchScheduled
  rw [h]

/-- A body consisting of `waitUntil` calls only registers tasks. -/
theorem onlyWaitUntil_map (xs : List PTask) :
    onlyWaitUntil (xs.map EAction.waitUntil) = true := by
  induction xs with
  | nil => rfl
  | cons x rest ih => simpa [onlyWaitUntil] using ih

/-- The tasks registered by a body of `waitUntil` calls are its payloads. -/
theorem tasksOf_map (xs : List PTask) :
    tasksOf (xs.map EAction.waitUntil) = xs := by
  induction xs with
  | nil => rfl
  | cons x rest ih => simpa [tasksOf] using ih

/-- `onlyWaitUntil` distributes over concatenation. -/
theorem onlyWaitUntil_append (a b : EProgram) :
    onlyWaitUntil (a ++ b) = (onlyWaitUntil a && onlyWaitUntil b) := by
  induction a with
  | nil => simp [onlyWaitUntil]
  | cons x rest ih =>
    cases x <;> simp [onlyWaitUntil, ih]

/-- `tasksOf` distributes over concatenation. -/
theorem tasksOf_append (a b : EProgram) :
    tasksOf (a ++ b) = tasksOf a ++ tasksOf b := by
  induction a with
  | nil => simp [tasksOf]
  | cons x rest ih =>
    cases x <;> simp [tasksOf, ih]

/-- Claim C1: for every sequence of registered fetch listeners in which
listener k is the first whose turn sets a response (the earlier listeners
return normally without setting one) and that response, when awaited,
resolves, `dispatchFetch` returns exactly that response value, and no
listener after k is ever invoked (exactly k+1 invocations happen); no
upstream fetch is performed. -/
theorem events_C1 (m : EventsModule) (upstreamUrl : Option String)
    (tr : Request → Except JsError Response) (req : Request)
    (pre post : List EProgram) (lk : EProgram) (resp : Response)
    (hls : m.listeners "fetch" = pre ++ lk :: post)
    (hpre : ∀ l ∈ pre, throwFree l = true ∧ lastResponse l = none)
    (hkT : throwFree lk = true)
    (hkR : lastResponse lk = some (Except.ok resp)) :
    (∃ s : FetchSuccess,
        (dispatchFetch m upstreamUrl tr req).result = Except.ok s ∧
        s.response = resp ∧ s.viaUpstream = false) ∧
    (dispatchFetch m upstreamUrl tr req).invoked = pre.length + 1 ∧
    (dispatchFetch m upstreamUrl tr req).fetchedRequest = none := by
  rw [dispatchFetch_responder m upstreamUrl tr req pre post lk resp hls hpre hkT hkR]
  refine ⟨⟨_, rfl, rfl, rfl⟩, ?_, rfl⟩
  rw [runCleanState_init_invoked]

/-- Witness for C1: in a module whose fetch listeners are task-registering,
responding-with-5. and throwing (in that order), dispatch returns response
5 and invokes exactly the first two listeners. -/
theorem events_C1_witness :
    (∃ s : FetchSuccess,
        (dispatchFetch wMod1 none wTr wReq).result = Except.ok s ∧
        s.response = { id := 5 } ∧ s.viaUpstream = false) ∧
    (dispatchFetch wMod1 none wTr wReq).invoked = 2 ∧
    (dispatchFetch wMod1 none wTr wReq).fetchedRequest = none := by
  have h := events_C1 wMod1 none wTr wReq [wL0] [wLpost] wLk { id := 5 }
    (by decide) (by decide) (by decide) (by decide)
  simpa using h

/-- Claim C2: when a fetch listener's invocation throws synchronously or
its set response rejects when awaited, exactly one more listener has been
invoked (none after it); if the pass-through flag is set at that moment the
failure is logged as a warning and dispatch proceeds to the fallback path,
and if it is not set the dispatch fails with exactly that error, logs
nothing, and attempts no fallback. -/
theorem events_C2 (m : EventsModule) (upstreamUrl : Option String)
    (tr : Request → Except JsError Response) (req : Request)
    (pre post : List EProgram) (lf : EProgram) (e : JsError) (ev' : FetchEvent)
    (hls : m.listeners "fetch" = pre ++ lf :: post)
    (hpre : ∀ l ∈ pre, throwFree l = true ∧ lastResponse l = none)
    (hfail : runFetchActions lf (runCleanState pre (initLoopState req)).ev = (ev', Except.error e)
      ∨ (runFetchActions lf (runCleanState pre (initLoopState req)).ev = (ev', Except.ok ())
          ∧ ev'.response = some (Except.error e))) :
    (dispatchFetch m upstreamUrl tr req).invoked = pre.length + 1 ∧
    (ev'.passThru = true →
        dispatchFetch m upstreamUrl tr req =
          fallback upstreamUrl tr req
            { ev := ev', invoked := pre.length + 1, warnings := [e] } ∧
        (dispatchFetch m upstreamUrl tr req).warnings = [e]) ∧
    (ev'.passThru = false →
        dispatchFetch m upstreamUrl tr req =
          { result := Except.error e, invoked := pre.length + 1, warnings := [],
            finalRequest := req, fetchedRequest := none }) := by
  obtain ⟨h1, h2⟩ :=
    dispatchFetch_failure m upstreamUrl tr req pre post lf e ev' hls hpre hfail
  rw [runCleanState_init_invoked, runCleanState_init_warnings] at h1
  rw [runCleanState_init_invoked, runCleanState_init_warnings] at h2
  simp only [List.nil_append] at h1
  refine ⟨?_, ?_, h2⟩
  · cases hpt : ev'.passThru with
    | false => rw [h2 hpt]
    | true => rw [h1 hpt, fallback_invoked]
  · intro hp
    refine ⟨h1 hp, ?_⟩
    rw [h1 hp, fallback_warnings]

/-- Witness for C2: the pass-through-then-throw listener causes one
invocation and a logged warning containing its error. -/
theorem events_C2_witness :
    (dispatchFetch wMod2 none wTr wReq).invoked = 1 ∧
    (dispatchFetch wMod2 none wTr wReq).warnings = [JsError.thrown 3] := by
  have h := events_C2 wMod2 none wTr wReq [] [] wLf (JsError.thrown 3) wEvPT
    (by decide) (by decide) (Or.inl (by decide))
  exact ⟨by simpa using h.1, by simpa using (h.2.1 (by decide)).2⟩

/-- Counterexample to C3 as stated: on the fallback path the source deletes
the `host` header from the ORIGINAL request object (so it does not remain
unmodified) and passes that original object to the upstream fetch — the
fetched request has the original's identity (`id = 0`), not the
duplicate's (`id = 1`). -/
theorem events_C3_counterexample :
    (dispatchFetch emptyModule (some "http://upstream") wTrOk wReqH).finalRequest ≠ wReqH ∧
    (dispatchFetch emptyModule (some "http://upstream") wTrOk wReqH).fetchedRequest =
      some { id := 0, headers := [] } ∧
    wReqH.clone.id = 1 ∧ wReqH.id = 0 := by
  refine ⟨by decide, by decide, by decide, by decide⟩

/-- Claim C3 (amended): for every fetch dispatch that reaches the fallback
path — the listener loop fell through, whether because the listeners were
exhausted without a response or because a pass-through failure broke out of
it — with an upstream configured, the event wraps a duplicate of the
inbound request and that duplicate remains unmodified; the upstream fetch
is performed using the ORIGINAL request object with its `host` header
removed in place — a request content-identical (same headers) to the
duplicate minus its `host` header, but carrying the original's identity. -/
theorem events_C3_amended (m : EventsModule) (u : String)
    (tr : Request → Except JsError Response) (req : Request)
    (h : (fetchLoop (m.listeners "fetch") (initLoopState req)).2 = LoopExit.fellThrough) :
    (initLoopState req).ev.request = req.clone ∧
    (dispatchFetch m (some u) tr req).fetchedRequest = some (req.deleteHeader "host") ∧
    (dispatchFetch m (some u) tr req).finalRequest = req.deleteHeader "host" ∧
    (req.deleteHeader "host").id = req.id ∧
    req.clone.id ≠ req.id ∧
    (req.deleteHeader "host").headers = (req.clone.deleteHeader "host").headers ∧
    (∀ s : FetchSuccess, (dispatchFetch m (some u) tr req).result = Except.ok s →
        s.event.request = req.clone) := by
  have hdisp := dispatchFetch_fellThrough m (some u) tr req h
  obtain ⟨hf1, hf2, hf3⟩ :=
    fallback_some_parts u tr req (fetchLoop (m.listeners "fetch") (initLoopState req)).1
  refine ⟨rfl, ?_, ?_, rfl, ?_, rfl, ?_⟩
  · rw [hdisp]
    exact hf1
  · rw [hdisp]
    exact hf2
  · simp [Request.clone]
  · intro s hs
    rw [hdisp] at hs
    rw [hf3 s hs, fetchLoop_request]
    rfl

/-- Witness for the amended C3: a concrete dispatch that reaches the
fallback through the pass-through-failure route (the
pass-through-then-throw listener), with a `host` header present on the
inbound request. -/
theorem events_C3_amended_witness :
    (dispatchFetch wMod2 (some "http://upstream") wTrOk wReqH).fetchedRequest =
      some (wReqH.deleteHeader "host") ∧
    (wReqH.deleteHeader "host").id = wReqH.id ∧
    wReqH.clone.id ≠ wReqH.id := by
  have h := events_C3_amended wMod2 "http://upstream" wTrOk wReqH (by decide)
  exact ⟨h.2.1, h.2.2.2.1, h.2.2.2.2.1⟩

/-- Claim C4: whenever dispatch reaches the fallback path with no upstream
configured — either because every listener ran cleanly without responding,
or because a listener failed with the pass-through flag set — the dispatch
fails with the no-upstream configuration error and performs no upstream
fetch; in the pass-through case the result is never the original listener
error. -/
theorem events_C4 (tr : Request → Except JsError Response) (req : Request) :
    (∀ m : EventsModule,
        (∀ l ∈ m.listeners "fetch", throwFree l = true ∧ lastResponse l = none) →
        (dispatchFetch m none tr req).result = Except.error JsError.fetchNoUpstream ∧
        (dispatchFetch m none tr req).fetchedRequest = none) ∧
    (∀ (m : EventsModule) (pre post : List EProgram) (lf : EProgram) (e : JsError)
        (ev' : FetchEvent),
        m.listeners "fetch" = pre ++ lf :: post →
        (∀ l ∈ pre, throwFree l = true ∧ lastResponse l = none) →
        (runFetchActions lf (runCleanState pre (initLoopState req)).ev = (ev', Except.error e)
          ∨ (runFetchActions lf (runCleanState pre (initLoopState req)).ev = (ev', Except.ok ())
              ∧ ev'.response = some (Except.error e))) →
        ev'.passThru = true →
        (dispatchFetch m none tr req).result = Except.error JsError.fetchNoUpstream ∧
        ∀ n : Nat, (dispatchFetch m none tr req).result ≠ Except.error (JsError.thrown n)) := by
  constructor
  · intro m h
    have hex := dispatchFetch_exhausted m none tr req h
    rw [hex]
    exact ⟨rfl, rfl⟩
  · intro m pre post lf e ev' hls hpre hfail hpt
    obtain ⟨h1, _⟩ :=
      dispatchFetch_failure m none tr req pre post lf e ev' hls hpre hfail
    have hd := h1 hpt
    rw [hd]
    refine ⟨rfl, ?_⟩
    intro n hcon
    simp [fallback] at hcon

/-- Witness for C4: with no listeners, and with only the
pass-through-then-throw listener, dispatch without upstream fails with the
configuration error (not the listener's own error). -/
theorem events_C4_witness :
    (dispatchFetch emptyModule none wTr wReq).result = Except.error JsError.fetchNoUpstream ∧
    (dispatchFetch wMod2 none wTr wReq).result = Except.error JsError.fetchNoUpstream ∧
    (dispatchFetch wMod2 none wTr wReq).result ≠ Except.error (JsError.thrown 3) := by
  have ha := ((events_C4 wTr wReq).1 emptyModule (by decide)).1
  have hb := (events_C4 wTr wReq).2 wMod2 [] [] wLf (JsError.thrown 3) wEvPT
    (by decide) (by decide) (Or.inl (by decide)) (by decide)
  exact ⟨ha, hb.1, hb.2 3⟩

/-- Claim C5: the background-task accessor resolves with the tasks' values
as an array in exactly registration order whenever every task resolves —
regardless of the tasks' individual completion times — and if any task
rejects it rejects with the error of a rejecting task of minimal
completion time (first rejection wins). -/
theorem events_C5 (ev : FetchEvent) :
    (∀ vs : List Val, ev.tasks.map PTask.result = vs.map Except.ok →
        waitUntilAll ev = Except.ok vs) ∧
    ((∃ t ∈ ev.tasks, ∃ e, t.result = Except.error e) →
        ∃ t ∈ ev.tasks, ∃ e, t.result = Except.error e ∧
          waitUntilAll ev = Except.error e ∧
          ∀ u ∈ ev.tasks, ∀ e2, u.result = Except.error e2 → t.time ≤ u.time) := by
  constructor
  · intro vs h
    exact (promiseAll_eq_ok_iff ev.tasks vs).2 h
  · intro h
    exact promiseAll_rejects ev.tasks h

/-- Witness for C5: tasks registered as (1 at time 5, 2 at time 2) resolve
to `[1, 2]` despite completing in the opposite order, and of two rejecting
tasks the one settling earliest wins. -/
theorem events_C5_witness :
    waitUntilAll wEvA = Except.ok [1, 2] ∧
    (∃ t ∈ wEvB.tasks, ∃ e, t.result = Except.error e ∧
        waitUntilAll wEvB = Except.error e ∧
        ∀ u ∈ wEvB.tasks, ∀ e2, u.result = Except.error e2 → t.time ≤ u.time) :=
  ⟨(events_C5 wEvA).1 [1, 2] (by decide), (events_C5 wEvB).2
    ⟨{ time := 5, result := Except.error (JsError.thrown 7) }, by decide,
      JsError.thrown 7, by decide⟩⟩

/-- Claim C6: `dispatchScheduled` invokes every listener registered for the
`"scheduled"` type, in registration order, all synchronous portions
completing before any awaiting, and only afterwards aggregates the event's
background tasks — so a task that will eventually reject (the tasks'
outcomes are unconstrained here) never prevents later listeners from being
invoked, and its rejection surfaces only in the final aggregated result. -/
theorem events_C6 (m : EventsModule) (now : Nat) (st : Option Nat) (cr : Option String)
    (h : ∀ l ∈ m.listeners "scheduled", onlyWaitUntil l = true) :
    (dispatchScheduled m now st cr).invoked = (m.listeners "scheduled").length ∧
    (dispatchScheduled m now st cr).result =
      promiseAll (allTasks (m.listeners "scheduled")) := by
  simp only [dispatchScheduled]
  rw [scheduledLoop_only (m.listeners "scheduled")
    { scheduledTime := st.getD now, cron := cr.getD "", tasks := [] } 0 h]
  constructor <;> simp

/-- Witness for C6: both scheduled listeners run (invocation count 2) even
though the first registers a task that rejects; the rejection shows up only
in the aggregated result. -/
theorem events_C6_witness :
    (dispatchScheduled wModS 0 none none).invoked = 2 ∧
    (dispatchScheduled wModS 0 none none).result =
      promiseAll (allTasks (wModS.listeners "scheduled")) := by
  have h := events_C6 wModS 0 none none (by decide)
  exact ⟨h.1.trans (by decide), h.2⟩

/-- Claim C7: registering a listener under a type tag other than `"fetch"`
and `"scheduled"` emits a warning but still appends the handler to that
tag's ordered sequence, and neither dispatch algorithm's behaviour changes
— they never read handlers stored under an unrecognized tag. -/
theorem events_C7 (m : EventsModule) (ty : String) (l : EProgram)
    (h1 : ty ≠ "fetch") (h2 : ty ≠ "scheduled") :
    (addEventListener m ty l).warnLog = m.warnLog ++ [invalidTypeWarning ty] ∧
    (addEventListener m ty l).listeners ty = m.listeners ty ++ [l] ∧
    (∀ (upstreamUrl : Option String) (tr : Request → Except JsError Response) (req : Request),
        dispatchFetch (addEventListener m ty l) upstreamUrl tr req =
          dispatchFetch m upstreamUrl tr req) ∧
    (∀ (now : Nat) (st : Option Nat) (cr : Option String),
        dispatchScheduled (addEventListener m ty l) now st cr =
          dispatchScheduled m now st cr) := by
  refine ⟨addEventListener_warnLog_invalid m ty l ⟨h1, h2⟩, ?_, ?_, ?_⟩
  · rw [addEventListener_listeners, if_pos rfl]
  · intro upstreamUrl tr req
    apply dispatchFetch_reads_only_fetch
    rw [addEventListener_listeners, if_neg]
    intro hh
    exact h1 hh.symm
  · intro now st cr
    apply dispatchScheduled_reads_only_scheduled
    rw [addEventListener_listeners, if_neg]
    intro hh
    exact h2 hh.symm

/-- Witness for C7: registering under the typo tag `"poke"` logs the
warning, stores the handler under `"poke"`, and leaves a fetch dispatch
unchanged. -/
theorem events_C7_witness :
    (addEventListener emptyModule "poke" wLf).warnLog = [invalidTypeWarning "poke"] ∧
    (addEventListener emptyModule "poke" wLf).listeners "poke" = [wLf] ∧
    dispatchFetch (addEventListener emptyModule "poke" wLf) none wTr wReq =
      dispatchFetch emptyModule none wTr wReq := by
  have h := events_C7 emptyModule "poke" wLf (by decide) (by decide)
  exact ⟨by simpa using h.1, by simpa using h.2.1, h.2.2.1 none wTr wReq⟩

/-- Claim C8: the pass-through flag is monotonic — each dispatch constructs
a fresh event whose flag starts `false`; the only operation on the flag
sets it to `true` and is idempotent; the other event operations do not
touch it; and no sequence of listener actions can unset it once set. -/
theorem events_C8 :
    (∀ req : Request, (initLoopState req).ev.passThru = false) ∧
    (∀ ev : FetchEvent, ev.passThroughOnException.passThru = true) ∧
    (∀ ev : FetchEvent,
        ev.passThroughOnException.passThroughOnException = ev.passThroughOnException) ∧
    (∀ (ev : FetchEvent) (p : Except JsError Response),
        (ev.respondWith p).passThru = ev.passThru) ∧
    (∀ (ev : FetchEvent) (t : PTask), (ev.waitUntil t).passThru = ev.passThru) ∧
    (∀ (l : EProgram) (ev : FetchEvent), ev.passThru = true →
        ((runFetchActions l ev).1).passThru = true) :=
  ⟨fun _ => rfl, fun _ => rfl, fun _ => rfl, fun _ _ => rfl, fun _ _ => rfl,
    runFetchActions_passThru_mono⟩

/-- Witness for C8: a listener body that responds cannot clear an
already-set flag. -/
theorem events_C8_witness :
    ((runFetchActions [EAction.respondWith (Except.ok { id := 3 })] wEvPT).1).passThru
      = true :=
  events_C8.2.2.2.2.2 [EAction.respondWith (Except.ok { id := 3 })] wEvPT rfl

/-- Claim C9: the listener registered by `addModuleScheduledListener`
invokes the module handler and then appends `Promise.resolve` of the
handler's return value to the event's task list after all the tasks the
handler registered through its context, so in `dispatchScheduled`'s result
array the handler-registered task results precede the handler's own return
value. -/
theorem events_C9 (L : ModScheduledListener) (ev : ScheduledEvent) :
    runScheduledActions (moduleScheduledProgram L) ev =
      ({ scheduledTime := ev.scheduledTime, cron := ev.cron,
         tasks := ev.tasks ++ (L.calls ++ [L.ret]) }, Except.ok ()) ∧
    (∀ (m : EventsModule) (now : Nat) (st : Option Nat) (cr : Option String)
        (cvs : List Val) (rv : Val),
        m.listeners "scheduled" = [] →
        L.calls.map PTask.result = cvs.map Except.ok →
        L.ret.result = Except.ok rv →
        (dispatchScheduled (addModuleScheduledListener m L) now st cr).result =
          Except.ok (cvs ++ [rv])) := by
  have honly : onlyWaitUntil (moduleScheduledProgram L) = true := by
    simp [moduleScheduledProgram, onlyWaitUntil_append, onlyWaitUntil_map, onlyWaitUntil]
  have htasks : tasksOf (moduleScheduledProgram L) = L.calls ++ [L.ret] := by
    simp [moduleScheduledProgram, tasksOf_append, tasksOf_map, tasksOf]
  constructor
  · rw [runScheduledActions_only (moduleScheduledProgram L) ev honly, htasks]
  · intro m now st cr cvs rv hm hcvs hrv
    have hsl : (addModuleScheduledListener m L).listeners "scheduled" =
        [moduleScheduledProgram L] := by
      unfold addModuleScheduledListener
      rw [addEventListener_listeners, if_pos rfl, hm]
      exact List.nil_append _
    simp only [dispatchScheduled, hsl]
    rw [scheduledLoop_only [moduleScheduledProgram L]
      { scheduledTime := st.getD now, cron := cr.getD "", tasks := [] } 0
      (by intro x hx; rw [List.mem_singleton] at hx; rw [hx]; exact honly)]
    simp only [allTasks, htasks, List.nil_append, List.append_nil]
    apply (promiseAll_eq_ok_iff _ _).2
    simp [hcvs, hrv]

/-- Witness for C9: the handler registering tasks 1 and 2 and returning 9
yields the aggregated result `[1, 2, 9]` — registered tasks first, return
value last. -/
theorem events_C9_witness :
    (dispatchScheduled (addModuleScheduledListener emptyModule wML) 0 none none).result =
      Except.ok [1, 2, 9] := by
  have h := (events_C9 wML { scheduledTime := 0, cron := "", tasks := [] }).2
    emptyModule 0 none none [1, 2] 9 rfl (by decide) (by decide)
  simpa using h

/-- Claim C10: the background-task accessor attached to a dispatched
response reads the event's task list anew on each invocation (it is a pure
function of the event captured by the closure, so it may be invoked any
number of times): a promise appended through the retained `waitUntil`
capability after `dispatchFetch` has returned is included, in order, in a
subsequent invocation's aggregated result. -/
theorem events_C10 (m : EventsModule) (upstreamUrl : Option String)
    (tr : Request → Except JsError Response) (req : Request)
    (s : FetchSuccess) (p : PTask) (v : Val) (vs : List Val)
    (_hd : (dispatchFetch m upstreamUrl tr req).result = Except.ok s)
    (hp : p.result = Except.ok v)
    (hvs : FetchSuccess.waitUntil s = Except.ok vs) :
    FetchSuccess.waitUntil { s with event := s.event.waitUntil p } =
      Except.ok (vs ++ [v]) ∧
    (s.event.waitUntil p).tasks = s.event.tasks ++ [p] := by
  constructor
  · have h2 := (promiseAll_eq_ok_iff s.event.tasks vs).1 hvs
    show promiseAll (s.event.tasks ++ [p]) = Except.ok (vs ++ [v])
    apply (promiseAll_eq_ok_iff _ _).2
    simp [h2, hp]
  · rfl

/-- Witness for C10: a task appended after the concrete dispatch of
`wMod10` shows up at the end of the accessor's next result. -/
theorem events_C10_witness :
    FetchSuccess.waitUntil
        { wS10 with event := wS10.event.waitUntil { time := 9, result := Except.ok 99 } } =
      Except.ok [10, 99] := by
  have h := events_C10 wMod10 none wTr wReq wS10
    { time := 9, result := Except.ok 99 } 99 [10] (by decide) (by decide) (by decide)
  simpa using h.1

end MiniflareEvents
